import Mathlib

/-!
Verification development for the RTX-Remix downloader (src/main.py).

The program is sequential I/O glue around three pure cores, embedded here:
  - the recursive directory merge utility (main.py, replace_recursively, lines 107-119),
    modelled on finite labelled trees (directories as association lists keyed by name);
  - the selection logic of the release fetcher (lines 132-135) and the artifact
    fetcher (lines 171-186);
  - the cleanup / manifest logic of main (lines 259-281) together with the
    configuration table (lines 60-81) and the argument handling (lines 25-55).

Filesystem effects (shutil.move, mkdir, rmdir, unlink) are embedded as pure
transformations of the tree; a Python exception that would abort the run
(shutil.Error, FileExistsError, KeyError, NameError, IsADirectoryError) is
embedded as Except.error.
-/

/-- A filesystem tree: a file with contents, or a directory holding a list of
named children (the association list plays the role of the directory table). -/
inductive FSTree where
  | file (content : String)
  | dir (children : List (String × FSTree))

/-- Lookup of a directory entry by name (the first binding wins). -/
def lookupEntry (n : String) : List (String × FSTree) → Option FSTree
  | [] => none
  | (m, t) :: rest => if m = n then some t else lookupEntry n rest

/-- Create or overwrite the entry named n: an existing binding is replaced in
place, a fresh one is appended at the end. -/
def insertEntry (n : String) (t : FSTree) : List (String × FSTree) → List (String × FSTree)
  | [] => [(n, t)]
  | (m, u) :: rest => if m = n then (n, t) :: rest else (m, u) :: insertEntry n t rest

/-- Remove the entry named n (the first binding). -/
def eraseEntry (n : String) : List (String × FSTree) → List (String × FSTree)
  | [] => []
  | (m, u) :: rest => if m = n then rest else (m, u) :: eraseEntry n rest

/-- True when no entry of the directory is named n. -/
def keyFree (n : String) : List (String × FSTree) → Bool
  | [] => true
  | (m, _) :: rest => if m = n then false else keyFree n rest

/-- True when every top-level name of the first directory is absent from the second. -/
def freshKeys : List (String × FSTree) → List (String × FSTree) → Bool
  | [], _ => true
  | (n, _) :: rest, d => keyFree n d && freshKeys rest d

/-- True when no directory anywhere in the tree binds the same name twice
(every real on-disk directory satisfies this). -/
def nodupTree : List (String × FSTree) → Bool
  | [] => true
  | (n, FSTree.file _) :: rest => keyFree n rest && nodupTree rest
  | (n, FSTree.dir sub) :: rest => keyFree n rest && nodupTree sub && nodupTree rest

/-- True when moving the first tree into the second never pairs a file with a
directory of the same name (in either direction) along a shared path. -/
def noTypeConflict : List (String × FSTree) → List (String × FSTree) → Bool
  | [], _ => true
  | (n, FSTree.file _) :: rest, dest =>
    (match lookupEntry n dest with
     | some (FSTree.dir _) => false
     | _ => true) && noTypeConflict rest dest
  | (n, FSTree.dir sub) :: rest, dest =>
    (match lookupEntry n dest with
     | some (FSTree.file _) => false
     | some (FSTree.dir dsub) => noTypeConflict sub dsub
     | none => true) && noTypeConflict rest dest

/-- main.py lines 107-119, replace_recursively(root_path, move_to): iterate the
children of the source; a file child is moved with shutil.move onto
move_to/name (os.rename overwrites an existing destination file; when the
destination is an existing directory, shutil.move instead moves the file
inside it and raises shutil.Error if that inner path already exists); a
directory child is created at the destination with mkdir(exist_ok=True)
(FileExistsError when a file of that name exists), merged recursively, and the
emptied source child is removed with rmdir.  The first argument is the list of
source children (each one is consumed: moved away or removed), the second the
destination children; the result is the new destination children. -/
def replace_recursively : List (String × FSTree) → List (String × FSTree) → Except String (List (String × FSTree))
  | [], dest => Except.ok dest
  | (name, FSTree.file c) :: rest, dest =>
    match lookupEntry name dest with
    | some (FSTree.dir dsub) =>
      match lookupEntry name dsub with
      | some _ => Except.error "shutil.Error: Destination path already exists"
      | none =>
        replace_recursively rest
          (insertEntry name (FSTree.dir (insertEntry name (FSTree.file c) dsub)) dest)
    | _ => replace_recursively rest (insertEntry name (FSTree.file c) dest)
  | (name, FSTree.dir sub) :: rest, dest =>
    match lookupEntry name dest with
    | some (FSTree.file _) => Except.error "FileExistsError: mkdir on an existing file"
    | some (FSTree.dir dsub) =>
      match replace_recursively sub dsub with
      | Except.error e => Except.error e
      | Except.ok dsub2 => replace_recursively rest (insertEntry name (FSTree.dir dsub2) dest)
    | none =>
      match replace_recursively sub [] with
      | Except.error e => Except.error e
      | Except.ok dsub2 => replace_recursively rest (insertEntry name (FSTree.dir dsub2) dest)

/-- Specification-level merge, following the words of spec.md section 4.3:
recursively move every entry from source into destination, preserving relative
structure; files are moved directly, overwriting any existing destination file
of the same name; directories are created at the destination if absent and
merged recursively. -/
def spec_merge : List (String × FSTree) → List (String × FSTree) → List (String × FSTree)
  | [], dest => dest
  | (name, FSTree.file c) :: rest, dest =>
    spec_merge rest (insertEntry name (FSTree.file c) dest)
  | (name, FSTree.dir sub) :: rest, dest =>
    match lookupEntry name dest with
    | some (FSTree.dir dsub) =>
      spec_merge rest (insertEntry name (FSTree.dir (spec_merge sub dsub)) dest)
    | _ => spec_merge rest (insertEntry name (FSTree.dir (spec_merge sub [])) dest)

/-- main.py lines 151-154 (inside fetch_release): the freshly extracted payload
must consist of a single top-level wrapper directory; its contents are merged
into the ephemeral root with replace_recursively and the emptied wrapper is
removed with rmdir.  While the move runs, the destination still lists the
wrapper itself; its contents are being drained, so it is represented by an
empty directory entry. -/
def flatten (root : List (String × FSTree)) : Except String (List (String × FSTree)) :=
  match root with
  | [(wname, FSTree.dir wchildren)] =>
    match replace_recursively wchildren [(wname, FSTree.dir [])] with
    | Except.error e => Except.error e
    | Except.ok d =>
      match lookupEntry wname d with
      | some (FSTree.dir []) => Except.ok (eraseEntry wname d)
      | _ => Except.error "OSError: directory not empty"
  | _ => Except.error "payload is not a single wrapper directory"

/-- Whether the first list of characters occurs at the head of the second. -/
def startsWithChars : List Char → List Char → Bool
  | [], _ => true
  | _ :: _, [] => false
  | p :: ps, c :: cs => p == c && startsWithChars ps cs

/-- Whether the first list of characters occurs contiguously in the second. -/
def containsChars (pat : List Char) : List Char → Bool
  | [] => pat.isEmpty
  | c :: cs => startsWithChars pat (c :: cs) || containsChars pat cs

/-- The Python substring test, pat in s. -/
def containsStr (s pat : String) : Bool :=
  containsChars pat.data s.data

/-- One entry of the assets array of the latest-release response. -/
structure Asset where
  name : String
  browser_download_url : String
  size : Nat

/-- main.py lines 132-135: iterate every asset and remember the download data
of each asset whose name does not contain "symbols"; the loop has no break, so
the last qualifying asset is the one remembered.  The accumulator is the asset
remembered so far. -/
def select_asset : List Asset → Option Asset → Option Asset
  | [], acc => acc
  | a :: rest, acc =>
    select_asset rest (if containsStr a.name "symbols" then acc else some a)

/-- main.py lines 132-144: when no asset qualified, download_url was never
bound and line 140 raises NameError before anything is downloaded. -/
def fetch_release_select (assets : List Asset) : Except String Asset :=
  match select_asset assets none with
  | some a => Except.ok a
  | none => Except.error "NameError: name download_url is not defined"

/-- One entry of the workflow_runs array of the runs listing. -/
structure WorkflowRun where
  head_branch : String
  conclusion : String
  artifacts_url : String
  created_at : String

/-- The condition of main.py lines 172-175. -/
def runMatches (branch : String) (r : WorkflowRun) : Bool :=
  r.head_branch == branch && r.conclusion == "success"

/-- Replace the created_at field, leaving every field the selection reads
untouched. -/
def setCreatedAt (d : String) (r : WorkflowRun) : WorkflowRun :=
  ⟨r.head_branch, r.conclusion, r.artifacts_url, d⟩

/-- main.py lines 171-178: take the runs in the order the listing returns them
and select the first whose head_branch equals the configured branch and whose
conclusion is "success" (the loop breaks at the first hit; no date is read). -/
def select_run (branch : String) (runs : List WorkflowRun) : Option WorkflowRun :=
  runs.find? (runMatches branch)

/-- One entry of the artifacts array of a run's artifact listing. -/
structure Artifact where
  name : String
  id : Nat
  size_in_bytes : Nat

/-- main.py lines 180-186: the first artifact whose name contains the requested
build type (the loop breaks at the first hit). -/
def select_artifact (build_type : String) (artifacts : List Artifact) : Option Artifact :=
  artifacts.find? (fun a => containsStr a.name build_type)

/-- main.py lines 166-186, the resolution core of fetch_artifact: when no run
matches, the loop falls through without rebinding json, so json is still the
runs listing and json["artifacts"] raises KeyError; when a run matches but no
artifact name contains the build type, artifact_name is never bound and line
191 raises NameError.  artifacts_of gives the artifact listing fetched from
the selected run's artifacts_url. -/
def fetch_artifact_select (branch build_type : String) (runs : List WorkflowRun)
    (artifacts_of : WorkflowRun → List Artifact) : Except String (WorkflowRun × Artifact) :=
  match select_run branch runs with
  | none => Except.error "KeyError: artifacts"
  | some r =>
    match select_artifact build_type (artifacts_of r) with
    | none => Except.error "NameError: name artifact_name is not defined"
    | some a => Except.ok (r, a)

/-- Whether the name ends with the given literal pattern tail (the glob
*.pdb matches exactly the names ending in .pdb). -/
def endsWithName (n suf : String) : Bool :=
  startsWithChars suf.data.reverse n.data.reverse

/-- The three cleanup patterns of main.py lines 259-264 combined: a name
matching the glob *.pdb, or equal to CRC.txt, or equal to artifacts_readme.txt. -/
def badName (n : String) : Bool :=
  endsWithName n ".pdb" || n == "CRC.txt" || n == "artifacts_readme.txt"

/-- No file anywhere in the tree has a name satisfying bad. -/
def noFilesMatching (bad : String → Bool) : List (String × FSTree) → Bool
  | [] => true
  | (n, FSTree.file _) :: rest => !bad n && noFilesMatching bad rest
  | (_, FSTree.dir sub) :: rest => noFilesMatching bad sub && noFilesMatching bad rest

/-- One cleanup pass of main.py lines 259-264: rglob(pattern) yields every
entry, at any depth, whose name matches; unlink removes a matched file and
raises when the match is a directory. -/
def cleanupNames (bad : String → Bool) : List (String × FSTree) → Except String (List (String × FSTree))
  | [] => Except.ok []
  | (n, FSTree.file c) :: rest =>
    if bad n then cleanupNames bad rest
    else
      match cleanupNames bad rest with
      | Except.error e => Except.error e
      | Except.ok r => Except.ok ((n, FSTree.file c) :: r)
  | (n, FSTree.dir sub) :: rest =>
    if bad n then Except.error "IsADirectoryError: unlink on a directory"
    else
      match cleanupNames bad sub with
      | Except.error e => Except.error e
      | Except.ok s =>
        match cleanupNames bad rest with
        | Except.error e => Except.error e
        | Except.ok r => Except.ok ((n, FSTree.dir s) :: r)

/-- Sequencing of fallible stages: a raised exception aborts the run, an ok
result feeds the next stage. -/
def exceptStep (x : Except String (List (String × FSTree)))
    (f : List (String × FSTree) → Except String (List (String × FSTree))) :
    Except String (List (String × FSTree)) :=
  match x with
  | Except.error e => Except.error e
  | Except.ok r => f r

/-- main.py lines 259-264: the three passes in program order, *.pdb then
CRC.txt then artifacts_readme.txt. -/
def cleanup (t : List (String × FSTree)) : Except String (List (String × FSTree)) :=
  exceptStep (cleanupNames (fun n => endsWithName n ".pdb") t) (fun t1 =>
    exceptStep (cleanupNames (fun n => n == "CRC.txt") t1) (fun t2 =>
      cleanupNames (fun n => n == "artifacts_readme.txt") t2))

/-- One entry of the configuration table. -/
structure RepoConfig where
  repo_type : String
  move_to : Option String
  main_directory : Bool
  artifact_branch : Option String

/-- main.py lines 60-81, the static repository table in its source order. -/
def REPOSITORIES : List (String × RepoConfig) :=
  [("NVIDIAGameWorks/rtx-remix", ⟨"release", none, true, none⟩),
   ("NVIDIAGameWorks/dxvk-remix", ⟨"artifact", some ".trex", false, some "main"⟩),
   ("NVIDIAGameWorks/bridge-remix", ⟨"artifact", none, false, some "main"⟩)]

/-- main.py lines 224-232 together with lines 180-186: walk the table in
order; a release repository appends nothing to BUILD_NAMES; an artifact
repository appends the name of the artifact selected from its resolved
listing (artifacts_for, the listing lines 171-178 obtain for that
repository), or aborts with NameError when none matches.  The result is the
final BUILD_NAMES list. -/
def fetch_loop (build_type : String) (artifacts_for : String → List Artifact) :
    List (String × RepoConfig) → Except String (List String)
  | [] => Except.ok []
  | (repo, cfg) :: rest =>
    if cfg.repo_type == "release" then fetch_loop build_type artifacts_for rest
    else
      if cfg.repo_type == "artifact" then
        match select_artifact build_type (artifacts_for repo) with
        | some a =>
          match fetch_loop build_type artifacts_for rest with
          | Except.error e => Except.error e
          | Except.ok names => Except.ok (a.name :: names)
        | none => Except.error "NameError: name artifact_name is not defined"
      else fetch_loop build_type artifacts_for rest

/-- main.py lines 279-281: the file content produced by writing each recorded
name followed by a newline, in order. -/
def build_names_txt : List String → String
  | [] => ""
  | n :: rest => n ++ "\n" ++ build_names_txt rest

/-- Split a character list at every newline character; the result always has
one segment more than there are newlines. -/
def splitNl : List Char → List (List Char)
  | [] => [[]]
  | c :: rest =>
    if c = '\n' then [] :: splitNl rest
    else
      match splitNl rest with
      | [] => [[c]]
      | l :: ls => (c :: l) :: ls

/-- The lines of a newline-terminated text file: the newline-separated
segments without the trailing empty one. -/
def linesOf (s : String) : List String :=
  ((splitNl s.data).map (fun l => String.mk l)).dropLast

/-- main.py lines 19-23, choice key to build type. -/
def BUILD_TYPES : List (String × String) :=
  [("1", "release"), ("2", "debugoptimized"), ("3", "debug")]

/-- main.py lines 25-34: prompt until the typed answer is a key of
BUILD_TYPES; consumes interactive answers in order, none when they run out. -/
def get_build_type : List String → Option String
  | [] => none
  | choice :: rest =>
    match BUILD_TYPES.find? (fun p => p.fst == choice) with
    | some p => some p.snd
    | none => get_build_type rest

/-- The two fields of the args namespace the program reads. -/
structure Args where
  debug : Bool
  build_type : String

/-- main.py lines 36-55: a parser with a --build-type flag is constructed
(lines 36-52) but parse_args is never called; lines 53-55 instead build args
as a fresh Namespace with debug hard-coded to False and build_type taken from
the interactive prompt, so the command line is never consulted. -/
def make_args (_cli : List String) (stdin_lines : List String) : Option Args :=
  (get_build_type stdin_lines).map (fun bt => ⟨false, bt⟩)

/-! ### Association-list lemmas -/

theorem lookupEntry_insertEntry_ne (m n : String) (t : FSTree)
    (d : List (String × FSTree)) (h : m ≠ n) :
    lookupEntry m (insertEntry n t d) = lookupEntry m d := by
  induction d with
  | nil => simp [insertEntry, lookupEntry, h.symm]
  | cons hd rest ih =>
    obtain ⟨k, u⟩ := hd
    by_cases hk : k = n
    · subst hk
      simp [insertEntry, lookupEntry, h.symm, fun hc : k = m => h (hc.symm)]
    · simp [insertEntry, hk, lookupEntry]
      by_cases hkm : k = m
      · simp [hkm]
      · simp [hkm, ih]

theorem keyFree_lookupEntry (n : String) (d : List (String × FSTree))
    (h : keyFree n d = true) : lookupEntry n d = none := by
  induction d with
  | nil => simp [lookupEntry]
  | cons hd rest ih =>
    obtain ⟨k, u⟩ := hd
    by_cases hk : k = n
    · simp [keyFree, hk] at h
    · simp [keyFree, hk] at h
      simp [lookupEntry, hk, ih h]

theorem keyFree_append (n : String) (d e : List (String × FSTree)) :
    keyFree n (d ++ e) = (keyFree n d && keyFree n e) := by
  induction d with
  | nil => simp [keyFree]
  | cons hd rest ih =>
    obtain ⟨k, u⟩ := hd
    by_cases hk : k = n
    · simp [keyFree, hk]
    · simp [keyFree, hk, ih]

theorem insertEntry_fresh (n : String) (t : FSTree) (d : List (String × FSTree))
    (h : keyFree n d = true) : insertEntry n t d = d ++ [(n, t)] := by
  induction d with
  | nil => simp [insertEntry]
  | cons hd rest ih =>
    obtain ⟨k, u⟩ := hd
    by_cases hk : k = n
    · simp [keyFree, hk] at h
    · simp [keyFree, hk] at h
      simp [insertEntry, hk, ih h]

theorem noTypeConflict_insertEntry (x : String) (t : FSTree)
    (rest dest : List (String × FSTree)) (h : keyFree x rest = true) :
    noTypeConflict rest (insertEntry x t dest) = noTypeConflict rest dest := by
  induction rest with
  | nil => simp [noTypeConflict]
  | cons hd tl ih =>
    obtain ⟨m, e⟩ := hd
    by_cases hm : m = x
    · simp [keyFree, hm] at h
    · simp [keyFree, hm] at h
      have hlk := lookupEntry_insertEntry_ne m x t dest hm
      cases e with
      | file c => simp [noTypeConflict, hlk, ih h]
      | dir sub => simp [noTypeConflict, hlk, ih h]

theorem noTypeConflict_nil_dest (s : List (String × FSTree)) :
    noTypeConflict s [] = true := by
  induction s with
  | nil => simp [noTypeConflict]
  | cons hd tl ih =>
    obtain ⟨m, e⟩ := hd
    cases e with
    | file c => simp [noTypeConflict, lookupEntry, ih]
    | dir sub => simp [noTypeConflict, lookupEntry, ih]

theorem freshKeys_nil_dest (s : List (String × FSTree)) : freshKeys s [] = true := by
  induction s with
  | nil => simp [freshKeys]
  | cons hd tl ih =>
    obtain ⟨m, e⟩ := hd
    simp [freshKeys, keyFree, ih]

theorem freshKeys_snoc (n : String) (t : FSTree) (rest d : List (String × FSTree))
    (hf : freshKeys rest d = true) (hk : keyFree n rest = true) :
    freshKeys rest (d ++ [(n, t)]) = true := by
  induction rest with
  | nil => simp [freshKeys]
  | cons hd tl ih =>
    obtain ⟨m, e⟩ := hd
    by_cases hm : m = n
    · simp [keyFree, hm] at hk
    · simp [keyFree, hm] at hk
      simp [freshKeys] at hf
      simp [freshKeys, keyFree_append, hf.1, ih hf.2 hk, keyFree]
      intro hc
      exact absurd hc.symm hm

theorem noTypeConflict_of_fresh (s d : List (String × FSTree))
    (h : freshKeys s d = true) : noTypeConflict s d = true := by
  induction s with
  | nil => simp [noTypeConflict]
  | cons hd tl ih =>
    obtain ⟨m, e⟩ := hd
    simp [freshKeys] at h
    have hlk := keyFree_lookupEntry m d h.1
    cases e with
    | file c => simp [noTypeConflict, hlk, ih h.2]
    | dir sub => simp [noTypeConflict, hlk, ih h.2]

/-! ### The merge utility against the specification-level merge -/

theorem spec_merge_fresh (s : List (String × FSTree)) :
    ∀ d, nodupTree s = true → freshKeys s d = true →
    spec_merge s d = d ++ spec_merge s [] := by
  induction s with
  | nil => intro d _ _; simp [spec_merge]
  | cons hd rest ih =>
    obtain ⟨n, t⟩ := hd
    intro d h1 h2
    simp [freshKeys] at h2
    cases t with
    | file c =>
      simp [nodupTree] at h1
      have hfr : freshKeys rest (d ++ [(n, FSTree.file c)]) = true :=
        freshKeys_snoc n (FSTree.file c) rest d h2.2 h1.1
      have hfr0 : freshKeys rest [(n, FSTree.file c)] = true := by
        simpa using freshKeys_snoc n (FSTree.file c) rest [] (freshKeys_nil_dest rest) h1.1
      have h0 : insertEntry n (FSTree.file c) ([] : List (String × FSTree)) =
          [(n, FSTree.file c)] := rfl
      simp only [spec_merge]
      rw [insertEntry_fresh n (FSTree.file c) d h2.1, ih _ h1.2 hfr, h0, ih _ h1.2 hfr0]
      simp
    | dir sub =>
      obtain ⟨⟨hk, hs⟩, hr⟩ : (keyFree n rest = true ∧ nodupTree sub = true) ∧ nodupTree rest = true := by
        simpa [nodupTree] using h1
      have hlk := keyFree_lookupEntry n d h2.1
      have hfr : freshKeys rest (d ++ [(n, FSTree.dir (spec_merge sub []))]) = true :=
        freshKeys_snoc n _ rest d h2.2 hk
      have hfr0 : freshKeys rest [(n, FSTree.dir (spec_merge sub []))] = true := by
        simpa using freshKeys_snoc n (FSTree.dir (spec_merge sub [])) rest []
          (freshKeys_nil_dest rest) hk
      have h0 : insertEntry n (FSTree.dir (spec_merge sub [])) ([] : List (String × FSTree)) =
          [(n, FSTree.dir (spec_merge sub []))] := rfl
      simp only [spec_merge, hlk, lookupEntry]
      rw [insertEntry_fresh n _ d h2.1, ih _ hr hfr, h0, ih _ hr hfr0]
      simp

theorem spec_merge_nil_right (s : List (String × FSTree)) (h : nodupTree s = true) :
    spec_merge s [] = s := by
  match s with
  | [] => simp [spec_merge]
  | (n, FSTree.file c) :: rest =>
    simp [nodupTree] at h
    have hfr0 : freshKeys rest [(n, FSTree.file c)] = true := by
      simpa using freshKeys_snoc n (FSTree.file c) rest [] (freshKeys_nil_dest rest) h.1
    have h0 : insertEntry n (FSTree.file c) ([] : List (String × FSTree)) =
        [(n, FSTree.file c)] := rfl
    simp only [spec_merge]
    rw [h0, spec_merge_fresh rest _ h.2 hfr0, spec_merge_nil_right rest h.2]
    simp
  | (n, FSTree.dir sub) :: rest =>
    obtain ⟨⟨hk, hs⟩, hr⟩ : (keyFree n rest = true ∧ nodupTree sub = true) ∧ nodupTree rest = true := by
      simpa [nodupTree] using h
    have hsub := spec_merge_nil_right sub hs
    have hfr0 : freshKeys rest [(n, FSTree.dir sub)] = true := by
      simpa using freshKeys_snoc n (FSTree.dir sub) rest [] (freshKeys_nil_dest rest) hk
    have h0 : insertEntry n (FSTree.dir (spec_merge sub [])) ([] : List (String × FSTree)) =
        [(n, FSTree.dir (spec_merge sub []))] := rfl
    simp only [spec_merge, lookupEntry]
    rw [h0, hsub, spec_merge_fresh rest _ hr hfr0, spec_merge_nil_right rest hr]
    simp

theorem replace_recursively_ok (src dest : List (String × FSTree)) :
    nodupTree src = true → noTypeConflict src dest = true →
    replace_recursively src dest = Except.ok (spec_merge src dest) := by
  induction src, dest using replace_recursively.induct with
  | case1 dest =>
    intro _ _
    simp [replace_recursively, spec_merge]
  | case2 name c rest dest dsub hlk val hlk2 =>
    intro _ hc
    simp [noTypeConflict, hlk] at hc
  | case3 name c rest dest dsub hlk hlk2 ih =>
    intro _ hc
    simp [noTypeConflict, hlk] at hc
  | case4 name c rest dest hno ih =>
    intro hnd hc
    simp [nodupTree] at hnd
    simp [noTypeConflict] at hc
    have hc2 : noTypeConflict rest (insertEntry name (FSTree.file c) dest) = true := by
      rw [noTypeConflict_insertEntry name _ rest dest hnd.1]
      exact hc
    have hstep := ih hnd.2 hc2
    rcases hdest : lookupEntry name dest with _ | t
    · simp only [replace_recursively, spec_merge, hdest]
      exact hstep
    · cases t with
      | file c2 =>
        simp only [replace_recursively, spec_merge, hdest]
        exact hstep
      | dir dsub => exact (hno dsub hdest).elim
  | case5 name sub rest dest content hlk =>
    intro _ hc
    simp [noTypeConflict, hlk] at hc
  | case6 name sub rest dest dsub hlk e herr ih =>
    intro hnd hc
    obtain ⟨⟨hk, hs⟩, hr⟩ : (keyFree name rest = true ∧ nodupTree sub = true) ∧ nodupTree rest = true := by
      simpa [nodupTree] using hnd
    simp [noTypeConflict, hlk] at hc
    have := ih hs hc.1
    rw [this] at herr
    exact absurd herr (by simp)
  | case7 name sub rest dest dsub hlk dsub2 hok ih ih2 =>
    intro hnd hc
    obtain ⟨⟨hk, hs⟩, hr⟩ : (keyFree name rest = true ∧ nodupTree sub = true) ∧ nodupTree rest = true := by
      simpa [nodupTree] using hnd
    simp [noTypeConflict, hlk] at hc
    have hsub := ih hs hc.1
    rw [hsub] at hok
    have hdsub2 : dsub2 = spec_merge sub dsub := by
      injection hok with h
      exact h.symm
    subst hdsub2
    have hc2 : noTypeConflict rest (insertEntry name (FSTree.dir (spec_merge sub dsub)) dest) = true := by
      rw [noTypeConflict_insertEntry name _ rest dest hk]
      exact hc.2
    have hstep := ih2 hr hc2
    simp only [replace_recursively, spec_merge, hlk, hsub]
    exact hstep
  | case8 name sub rest dest hlk e herr ih =>
    intro hnd _
    obtain ⟨⟨hk, hs⟩, hr⟩ : (keyFree name rest = true ∧ nodupTree sub = true) ∧ nodupTree rest = true := by
      simpa [nodupTree] using hnd
    have := ih hs (noTypeConflict_nil_dest sub)
    rw [this] at herr
    exact absurd herr (by simp)
  | case9 name sub rest dest hlk dsub2 hok ih ih2 =>
    intro hnd hc
    obtain ⟨⟨hk, hs⟩, hr⟩ : (keyFree name rest = true ∧ nodupTree sub = true) ∧ nodupTree rest = true := by
      simpa [nodupTree] using hnd
    simp [noTypeConflict, hlk] at hc
    have hsub := ih hs (noTypeConflict_nil_dest sub)
    rw [hsub] at hok
    have hdsub2 : dsub2 = spec_merge sub [] := by
      injection hok with h
      exact h.symm
    subst hdsub2
    have hc2 : noTypeConflict rest (insertEntry name (FSTree.dir (spec_merge sub [])) dest) = true := by
      rw [noTypeConflict_insertEntry name _ rest dest hk]
      exact hc
    have hstep := ih2 hr hc2
    simp only [replace_recursively, spec_merge, hlk, hsub]
    exact hstep

theorem flatten_unwrap (wname : String) (wchildren : List (String × FSTree))
    (hnd : nodupTree wchildren = true) (hw : keyFree wname wchildren = true) :
    flatten [(wname, FSTree.dir wchildren)] = Except.ok wchildren := by
  have hfr : freshKeys wchildren [(wname, FSTree.dir [])] = true := by
    simpa using freshKeys_snoc wname (FSTree.dir []) wchildren [] (freshKeys_nil_dest _) hw
  have hrep := replace_recursively_ok wchildren [(wname, FSTree.dir [])] hnd
    (noTypeConflict_of_fresh _ _ hfr)
  have hmerge : spec_merge wchildren [(wname, FSTree.dir [])] =
      (wname, FSTree.dir []) :: wchildren := by
    rw [spec_merge_fresh wchildren _ hnd hfr, spec_merge_nil_right wchildren hnd]
    simp
  rw [hmerge] at hrep
  simp only [flatten, hrep]
  simp [lookupEntry, eraseEntry]

/-! ### Claims about the merge utility -/

/-- C1: for every source directory and destination directory (no two entries of
one directory sharing a name, and no file/directory name clash between the two
trees), replace_recursively moves every entry from source into destination
preserving relative structure, files overwriting any existing destination file
of the same name, directories created at the destination if absent and merged
recursively — that is, it succeeds and returns exactly the merge described by
the specification.  In the embedding the source children are consumed by the
operation: each file is moved away and each emptied subdirectory is removed by
the rmdir of line 119. -/
theorem merge_utility_meets_spec (src dest : List (String × FSTree))
    (hnd : nodupTree src = true) (hc : noTypeConflict src dest = true) :
    replace_recursively src dest = Except.ok (spec_merge src dest) :=
  replace_recursively_ok src dest hnd hc

/-- Witness for C1 on concrete trees: the file a overwrites the destination
file a, the directory d is merged recursively into the existing destination
directory d. -/
theorem merge_utility_meets_spec_witness :
    nodupTree [("a", FSTree.file "x"), ("d", FSTree.dir [("b", FSTree.file "y")])] = true ∧
    noTypeConflict [("a", FSTree.file "x"), ("d", FSTree.dir [("b", FSTree.file "y")])]
      [("a", FSTree.file "old"), ("d", FSTree.dir [("c", FSTree.file "z")])] = true ∧
    replace_recursively [("a", FSTree.file "x"), ("d", FSTree.dir [("b", FSTree.file "y")])]
      [("a", FSTree.file "old"), ("d", FSTree.dir [("c", FSTree.file "z")])] =
      Except.ok [("a", FSTree.file "x"),
        ("d", FSTree.dir [("c", FSTree.file "z"), ("b", FSTree.file "y")])] := by
  refine ⟨by simp [nodupTree, keyFree], by simp [noTypeConflict, lookupEntry], ?_⟩
  rw [merge_utility_meets_spec _ _ (by simp [nodupTree, keyFree])
    (by simp [noTypeConflict, lookupEntry])]
  simp [spec_merge, insertEntry, lookupEntry]

/-- C2: a release payload consisting of exactly one top-level wrapper
directory (whose own name does not recur among its children, as is the case
for real release archives) is flattened to an ephemeral directory whose
top-level entries equal the wrapper's original contents, and the wrapper is
absent afterward. -/
theorem release_flatten_unwraps_wrapper (wname : String)
    (wchildren : List (String × FSTree))
    (hnd : nodupTree wchildren = true) (hw : keyFree wname wchildren = true) :
    flatten [(wname, FSTree.dir wchildren)] = Except.ok wchildren ∧
    lookupEntry wname wchildren = none :=
  ⟨flatten_unwrap wname wchildren hnd hw, keyFree_lookupEntry wname wchildren hw⟩

/-- Witness for C2 on a concrete payload shaped like a real release archive. -/
theorem release_flatten_unwraps_wrapper_witness :
    nodupTree [("LICENSE.txt", FSTree.file "l"),
      ("usd", FSTree.dir [("scene.usd", FSTree.file "s")])] = true ∧
    keyFree "remix-0.4.1" [("LICENSE.txt", FSTree.file "l"),
      ("usd", FSTree.dir [("scene.usd", FSTree.file "s")])] = true ∧
    flatten [("remix-0.4.1", FSTree.dir [("LICENSE.txt", FSTree.file "l"),
      ("usd", FSTree.dir [("scene.usd", FSTree.file "s")])])] =
      Except.ok [("LICENSE.txt", FSTree.file "l"),
        ("usd", FSTree.dir [("scene.usd", FSTree.file "s")])] ∧
    lookupEntry "remix-0.4.1" [("LICENSE.txt", FSTree.file "l"),
      ("usd", FSTree.dir [("scene.usd", FSTree.file "s")])] = none := by
  have h := release_flatten_unwraps_wrapper "remix-0.4.1"
    [("LICENSE.txt", FSTree.file "l"), ("usd", FSTree.dir [("scene.usd", FSTree.file "s")])]
    (by simp [nodupTree, keyFree]) (by simp [keyFree])
  exact ⟨by simp [nodupTree, keyFree], by simp [keyFree], h.1, h.2⟩

/-- C8: merging an empty source directory into any destination tree leaves the
destination unchanged: the loop of line 109 iterates no children, so the
operation succeeds and returns the destination exactly. -/
theorem merge_empty_source_is_identity (dest : List (String × FSTree)) :
    replace_recursively [] dest = Except.ok dest := by
  simp [replace_recursively]

/-! ### Release asset selection -/

theorem select_asset_some_acc (l : List Asset) :
    ∀ x : Asset, ∃ y, select_asset l (some x) = some y := by
  induction l with
  | nil => exact fun x => ⟨x, rfl⟩
  | cons a t ih =>
    intro x
    cases hs : containsStr a.name "symbols" with
    | true => simpa [select_asset, hs] using ih x
    | false => simpa [select_asset, hs] using ih a

theorem select_asset_exists (l : List Asset) :
    ∀ acc, (∃ a ∈ l, containsStr a.name "symbols" = false) →
    ∃ sel, select_asset l acc = some sel := by
  induction l with
  | nil => rintro acc ⟨a, ha, _⟩; cases ha
  | cons a t ih =>
    rintro acc ⟨b, hb, hbs⟩
    cases hs : containsStr a.name "symbols" with
    | true =>
      rcases List.mem_cons.mp hb with hb | hb
      · subst hb; rw [hs] at hbs; cases hbs
      · simpa [select_asset, hs] using ih acc ⟨b, hb, hbs⟩
    | false => simpa [select_asset, hs] using select_asset_some_acc t a

theorem select_asset_split (l : List Asset) :
    ∀ acc sel, select_asset l acc = some sel →
    (∃ pre post, l = pre ++ sel :: post ∧ containsStr sel.name "symbols" = false ∧
      ∀ a ∈ post, containsStr a.name "symbols" = true) ∨
    (acc = some sel ∧ ∀ a ∈ l, containsStr a.name "symbols" = true) := by
  induction l with
  | nil =>
    intro acc sel h
    right
    exact ⟨h, by simp⟩
  | cons a t ih =>
    intro acc sel h
    cases hs : containsStr a.name "symbols" with
    | true =>
      rw [select_asset, if_pos hs] at h
      rcases ih acc sel h with ⟨pre, post, hsplit, hsel, hpost⟩ | ⟨hacc, hall⟩
      · exact Or.inl ⟨a :: pre, post, by rw [hsplit, List.cons_append], hsel, hpost⟩
      · refine Or.inr ⟨hacc, ?_⟩
        intro x hx
        rcases List.mem_cons.mp hx with hx | hx
        · subst hx; exact hs
        · exact hall x hx
    | false =>
      rw [select_asset, if_neg (by simp [hs])] at h
      rcases ih (some a) sel h with ⟨pre, post, hsplit, hsel, hpost⟩ | ⟨hacc, hall⟩
      · exact Or.inl ⟨a :: pre, post, by rw [hsplit, List.cons_append], hsel, hpost⟩
      · injection hacc with hacc
        subst hacc
        exact Or.inl ⟨[], t, rfl, hs, hall⟩

/-- C3: whenever the asset list holds at least one asset whose name does not
contain "symbols", the selection loop of lines 132-135 picks an asset whose
name does not contain "symbols", and because the loop has no break the picked
asset is the last qualifying one in listing order (every asset after it
contains "symbols"). -/
theorem release_asset_selection_last_non_symbol (assets : List Asset)
    (h : ∃ a ∈ assets, containsStr a.name "symbols" = false) :
    ∃ sel pre post, select_asset assets none = some sel ∧
      containsStr sel.name "symbols" = false ∧
      assets = pre ++ sel :: post ∧
      ∀ a ∈ post, containsStr a.name "symbols" = true := by
  obtain ⟨sel, hsel⟩ := select_asset_exists assets none h
  rcases select_asset_split assets none sel hsel with ⟨pre, post, hsplit, hs, hpost⟩ | ⟨habs, _⟩
  · exact ⟨sel, pre, post, hsel, hs, hsplit, hpost⟩
  · cases habs

/-- Witness for C3: three assets, the middle one a symbols package; the last
non-symbol asset wins. -/
theorem release_asset_selection_last_non_symbol_witness :
    (∃ a ∈ [Asset.mk "remix-0.4.zip" "u1" 1, Asset.mk "remix-0.4-symbols.zip" "u2" 2,
        Asset.mk "remix-0.4-full.zip" "u3" 3], containsStr a.name "symbols" = false) ∧
    (∃ sel pre post,
      select_asset [Asset.mk "remix-0.4.zip" "u1" 1, Asset.mk "remix-0.4-symbols.zip" "u2" 2,
        Asset.mk "remix-0.4-full.zip" "u3" 3] none = some sel ∧
      containsStr sel.name "symbols" = false ∧
      [Asset.mk "remix-0.4.zip" "u1" 1, Asset.mk "remix-0.4-symbols.zip" "u2" 2,
        Asset.mk "remix-0.4-full.zip" "u3" 3] = pre ++ sel :: post ∧
      ∀ a ∈ post, containsStr a.name "symbols" = true) :=
  ⟨⟨Asset.mk "remix-0.4.zip" "u1" 1, by simp, by decide⟩,
   release_asset_selection_last_non_symbol _
     ⟨Asset.mk "remix-0.4.zip" "u1" 1, by simp, by decide⟩⟩

/-! ### Continuous-integration run selection -/

theorem find?_eq_some_split {α : Type} (p : α → Bool) (l : List α) (r : α)
    (h : l.find? p = some r) :
    p r = true ∧ ∃ pre post, l = pre ++ r :: post ∧ ∀ x ∈ pre, p x = false := by
  induction l with
  | nil => simp [List.find?] at h
  | cons a t ih =>
    cases hpa : p a with
    | true =>
      rw [List.find?_cons_of_pos _ hpa] at h
      injection h with h
      subst h
      exact ⟨hpa, [], t, rfl, by simp⟩
    | false =>
      rw [List.find?_cons_of_neg _ (by simp [hpa])] at h
      obtain ⟨hpr, pre, post, hsplit, hpre⟩ := ih h
      refine ⟨hpr, a :: pre, post, by rw [hsplit, List.cons_append], ?_⟩
      intro x hx
      rcases List.mem_cons.mp hx with hx | hx
      · subst hx; exact hpa
      · exact hpre x hx

theorem select_run_ignores_dates (b d : String) (runs : List WorkflowRun) :
    select_run b (runs.map (setCreatedAt d)) = (select_run b runs).map (setCreatedAt d) := by
  induction runs with
  | nil => simp [select_run]
  | cons r t ih =>
    have hpred : runMatches b (setCreatedAt d r) = runMatches b r := rfl
    simp only [select_run, List.map_cons] at ih ⊢
    cases hm : runMatches b r with
    | true =>
      rw [List.find?_cons_of_pos _ (hpred.trans hm), List.find?_cons_of_pos _ hm]
      simp
    | false =>
      rw [List.find?_cons_of_neg _ (by simp [hpred, hm]),
        List.find?_cons_of_neg _ (by simp [hm])]
      exact ih

/-- C4: when the run scan of lines 171-178 selects a run, that run's
head_branch equals the configured branch and its conclusion is "success", it
is the first such run in the order the listing returns (every earlier run
fails the condition), and the selection reads no date: rewriting every run's
created_at field commutes with the selection. -/
theorem ci_run_selection_first_matching (b : String) (runs : List WorkflowRun)
    (r : WorkflowRun) (h : select_run b runs = some r) :
    (r.head_branch = b ∧ r.conclusion = "success") ∧
    (∃ pre post, runs = pre ++ r :: post ∧ ∀ x ∈ pre, runMatches b x = false) ∧
    (∀ d, select_run b (runs.map (setCreatedAt d)) =
      (select_run b runs).map (setCreatedAt d)) := by
  obtain ⟨hpr, pre, post, hsplit, hpre⟩ := find?_eq_some_split (runMatches b) runs r h
  refine ⟨?_, ⟨pre, post, hsplit, hpre⟩, fun d => select_run_ignores_dates b d runs⟩
  simpa [runMatches] using hpr

/-- Witness for C4: the first run is on another branch, the second failed;
the third run is selected. -/
theorem ci_run_selection_first_matching_witness :
    select_run "main" [WorkflowRun.mk "dev" "success" "u1" "2024-05-02",
      WorkflowRun.mk "main" "failure" "u2" "2024-05-01",
      WorkflowRun.mk "main" "success" "u3" "2024-04-30"] =
      some (WorkflowRun.mk "main" "success" "u3" "2024-04-30") ∧
    (((WorkflowRun.mk "main" "success" "u3" "2024-04-30").head_branch = "main" ∧
      (WorkflowRun.mk "main" "success" "u3" "2024-04-30").conclusion = "success") ∧
     (∃ pre post, [WorkflowRun.mk "dev" "success" "u1" "2024-05-02",
        WorkflowRun.mk "main" "failure" "u2" "2024-05-01",
        WorkflowRun.mk "main" "success" "u3" "2024-04-30"] =
        pre ++ (WorkflowRun.mk "main" "success" "u3" "2024-04-30") :: post ∧
        ∀ x ∈ pre, runMatches "main" x = false) ∧
     (∀ d, select_run "main" ([WorkflowRun.mk "dev" "success" "u1" "2024-05-02",
        WorkflowRun.mk "main" "failure" "u2" "2024-05-01",
        WorkflowRun.mk "main" "success" "u3" "2024-04-30"].map (setCreatedAt d)) =
        (select_run "main" [WorkflowRun.mk "dev" "success" "u1" "2024-05-02",
          WorkflowRun.mk "main" "failure" "u2" "2024-05-01",
          WorkflowRun.mk "main" "success" "u3" "2024-04-30"]).map (setCreatedAt d))) :=
  ⟨rfl, ci_run_selection_first_matching "main" _ _ rfl⟩

/-! ### Failure on resolution failure -/

theorem select_asset_all_symbols (l : List Asset) :
    ∀ acc, (∀ a ∈ l, containsStr a.name "symbols" = true) →
    select_asset l acc = acc := by
  induction l with
  | nil => intro acc _; rfl
  | cons a t ih =>
    intro acc hall
    have hs : containsStr a.name "symbols" = true := hall a (by simp)
    rw [select_asset, if_pos hs]
    exact ih acc (fun x hx => hall x (by simp [hx]))

/-- C5: the fetchers fail rather than proceed silently.  When no run has the
configured branch and a "success" conclusion, the artifact fetch aborts with
the KeyError raised at line 180 (json still holds the runs listing, which has
no artifacts key) and never selects a run; when every asset name contains
"symbols", the release fetch aborts with the NameError raised at line 140
(download_url was never bound) before downloading anything. -/
theorem fetchers_fail_on_resolution_failure (b bt : String)
    (runs : List WorkflowRun) (artifacts_of : WorkflowRun → List Artifact)
    (assets : List Asset)
    (hruns : ∀ r ∈ runs, runMatches b r = false)
    (hassets : ∀ a ∈ assets, containsStr a.name "symbols" = true) :
    fetch_artifact_select b bt runs artifacts_of = Except.error "KeyError: artifacts" ∧
    fetch_release_select assets =
      Except.error "NameError: name download_url is not defined" := by
  constructor
  · have hnone : select_run b runs = none := by
      rw [select_run, List.find?_eq_none]
      intro x hx
      simp [hruns x hx]
    rw [fetch_artifact_select, hnone]
  · rw [fetch_release_select, select_asset_all_symbols assets none hassets]

/-- Witness for C5: one non-matching run and one symbols-only asset list. -/
theorem fetchers_fail_on_resolution_failure_witness :
    (∀ r ∈ [WorkflowRun.mk "main" "failure" "u1" "2024-05-01"],
      runMatches "main" r = false) ∧
    (∀ a ∈ [Asset.mk "remix-symbols.zip" "u2" 2], containsStr a.name "symbols" = true) ∧
    fetch_artifact_select "main" "release"
      [WorkflowRun.mk "main" "failure" "u1" "2024-05-01"] (fun _ => []) =
      Except.error "KeyError: artifacts" ∧
    fetch_release_select [Asset.mk "remix-symbols.zip" "u2" 2] =
      Except.error "NameError: name download_url is not defined" := by
  have h := fetchers_fail_on_resolution_failure "main" "release"
    [WorkflowRun.mk "main" "failure" "u1" "2024-05-01"] (fun _ => [])
    [Asset.mk "remix-symbols.zip" "u2" 2]
    (by intro r hr; simp at hr; subst hr; decide)
    (by intro a ha; simp at ha; subst ha; decide)
  exact ⟨by intro r hr; simp at hr; subst hr; decide,
    by intro a ha; simp at ha; subst ha; decide, h.1, h.2⟩

/-! ### Cleanup of debug files -/

theorem insertEntry_clean_file (p : String → Bool) (n : String) (c : String)
    (d : List (String × FSTree)) (hn : p n = false)
    (hd : noFilesMatching p d = true) :
    noFilesMatching p (insertEntry n (FSTree.file c) d) = true := by
  induction d with
  | nil => simp [insertEntry, noFilesMatching, hn]
  | cons hd2 rest ih =>
    obtain ⟨m, u⟩ := hd2
    by_cases hm : m = n
    · subst hm
      cases u with
      | file c2 =>
        simp [noFilesMatching] at hd
        simp [insertEntry, noFilesMatching, hn, hd.2]
      | dir sub =>
        simp [noFilesMatching] at hd
        simp [insertEntry, noFilesMatching, hn, hd.2]
    · cases u with
      | file c2 =>
        simp [noFilesMatching] at hd
        simp [insertEntry, hm, noFilesMatching, hd.1, ih hd.2]
      | dir sub =>
        simp [noFilesMatching] at hd
        simp [insertEntry, hm, noFilesMatching, hd.1, ih hd.2]

theorem insertEntry_clean_dir (p : String → Bool) (n : String)
    (sub d : List (String × FSTree)) (hsub : noFilesMatching p sub = true)
    (hd : noFilesMatching p d = true) :
    noFilesMatching p (insertEntry n (FSTree.dir sub) d) = true := by
  induction d with
  | nil => simp [insertEntry, noFilesMatching, hsub]
  | cons hd2 rest ih =>
    obtain ⟨m, u⟩ := hd2
    by_cases hm : m = n
    · subst hm
      cases u with
      | file c2 =>
        simp [noFilesMatching] at hd
        simp [insertEntry, noFilesMatching, hsub, hd.2]
      | dir sub2 =>
        simp [noFilesMatching] at hd
        simp [insertEntry, noFilesMatching, hsub, hd.2]
    · cases u with
      | file c2 =>
        simp [noFilesMatching] at hd
        simp [insertEntry, hm, noFilesMatching, hd.1, ih hd.2]
      | dir sub2 =>
        simp [noFilesMatching] at hd
        simp [insertEntry, hm, noFilesMatching, hd.1, ih hd.2]

theorem lookupEntry_clean_dir (p : String → Bool) (n : String)
    (d sub : List (String × FSTree)) (hd : noFilesMatching p d = true)
    (hlk : lookupEntry n d = some (FSTree.dir sub)) :
    noFilesMatching p sub = true := by
  induction d with
  | nil => simp [lookupEntry] at hlk
  | cons hd2 rest ih =>
    obtain ⟨m, u⟩ := hd2
    by_cases hm : m = n
    · subst hm
      rw [lookupEntry, if_pos rfl] at hlk
      cases u with
      | file c2 => exact absurd hlk (by simp)
      | dir sub2 =>
        injection hlk with hlk
        injection hlk with hlk
        subst hlk
        simp [noFilesMatching] at hd
        exact hd.1
    · rw [lookupEntry, if_neg hm] at hlk
      cases u with
      | file c2 =>
        simp [noFilesMatching] at hd
        exact ih hd.2 hlk
      | dir sub2 =>
        simp [noFilesMatching] at hd
        exact ih hd.2 hlk

theorem replace_recursively_clean (p : String → Bool)
    (src dest : List (String × FSTree)) :
    ∀ out, replace_recursively src dest = Except.ok out →
    noFilesMatching p src = true → noFilesMatching p dest = true →
    noFilesMatching p out = true := by
  induction src, dest using replace_recursively.induct with
  | case1 dest =>
    intro out hok _ hdest
    simp [replace_recursively] at hok
    subst hok
    exact hdest
  | case2 name c rest dest dsub hlk val hlk2 =>
    intro out hok _ _
    simp [replace_recursively, hlk, hlk2] at hok
  | case3 name c rest dest dsub hlk hlk2 ih =>
    intro out hok hsrc hdest
    simp only [replace_recursively, hlk, hlk2] at hok
    simp [noFilesMatching] at hsrc
    have hdsub := lookupEntry_clean_dir p name dest dsub hdest hlk
    have hin : noFilesMatching p (insertEntry name (FSTree.file c) dsub) = true :=
      insertEntry_clean_file p name c dsub (by simpa using hsrc.1) hdsub
    have hin2 := insertEntry_clean_dir p name _ dest hin hdest
    exact ih out hok hsrc.2 hin2
  | case4 name c rest dest hno ih =>
    intro out hok hsrc hdest
    simp [noFilesMatching] at hsrc
    have hin := insertEntry_clean_file p name c dest (by simpa using hsrc.1) hdest
    rcases hdest2 : lookupEntry name dest with _ | t
    · simp only [replace_recursively, hdest2] at hok
      exact ih out hok hsrc.2 hin
    · cases t with
      | file c2 =>
        simp only [replace_recursively, hdest2] at hok
        exact ih out hok hsrc.2 hin
      | dir dsub => exact (hno dsub hdest2).elim
  | case5 name sub rest dest content hlk =>
    intro out hok _ _
    simp [replace_recursively, hlk] at hok
  | case6 name sub rest dest dsub hlk e herr ih =>
    intro out hok _ _
    simp [replace_recursively, hlk, herr] at hok
  | case7 name sub rest dest dsub hlk dsub2 hok2 ih ih2 =>
    intro out hok hsrc hdest
    simp only [replace_recursively, hlk, hok2] at hok
    simp [noFilesMatching] at hsrc
    have hdsub := lookupEntry_clean_dir p name dest dsub hdest hlk
    have hsub2 := ih dsub2 hok2 hsrc.1 hdsub
    have hin := insertEntry_clean_dir p name dsub2 dest hsub2 hdest
    exact ih2 out hok hsrc.2 hin
  | case8 name sub rest dest hlk e herr ih =>
    intro out hok _ _
    simp [replace_recursively, hlk, herr] at hok
  | case9 name sub rest dest hlk dsub2 hok2 ih ih2 =>
    intro out hok hsrc hdest
    simp only [replace_recursively, hlk, hok2] at hok
    simp [noFilesMatching] at hsrc
    have hsub2 := ih dsub2 hok2 hsrc.1 (by simp [noFilesMatching])
    have hin := insertEntry_clean_dir p name dsub2 dest hsub2 hdest
    exact ih2 out hok hsrc.2 hin

theorem noFilesMatching_or (p q : String → Bool) (l : List (String × FSTree))
    (hp : noFilesMatching p l = true) (hq : noFilesMatching q l = true) :
    noFilesMatching (fun n => p n || q n) l = true := by
  match l with
  | [] => simp [noFilesMatching]
  | (n, FSTree.file c) :: rest =>
    simp [noFilesMatching] at hp hq ⊢
    exact ⟨⟨hp.1, hq.1⟩, noFilesMatching_or p q rest hp.2 hq.2⟩
  | (n, FSTree.dir sub) :: rest =>
    simp [noFilesMatching] at hp hq ⊢
    exact ⟨noFilesMatching_or p q sub hp.1 hq.1, noFilesMatching_or p q rest hp.2 hq.2⟩

theorem cleanupNames_clean (bad : String → Bool) (t : List (String × FSTree)) :
    ∀ r, cleanupNames bad t = Except.ok r → noFilesMatching bad r = true := by
  induction t using cleanupNames.induct bad with
  | case1 =>
    intro r hok
    simp [cleanupNames] at hok
    subst hok
    simp [noFilesMatching]
  | case2 n c rest hbad ih =>
    intro r hok
    rw [cleanupNames, if_pos hbad] at hok
    exact ih r hok
  | case3 n c rest hbad e herr ih =>
    intro r hok
    rw [cleanupNames, if_neg hbad, herr] at hok
    cases hok
  | case4 n c rest hbad r0 hok0 ih =>
    intro r hok
    rw [cleanupNames, if_neg hbad, hok0] at hok
    injection hok with hok
    subst hok
    simp [noFilesMatching, ih r0 hok0]
    simpa using hbad
  | case5 n sub rest hbad =>
    intro r hok
    rw [cleanupNames, if_pos hbad] at hok
    cases hok
  | case6 n sub rest hbad e herr ih =>
    intro r hok
    rw [cleanupNames, if_neg hbad, herr] at hok
    cases hok
  | case7 n sub rest hbad s hoks e herr ih ih2 =>
    intro r hok
    rw [cleanupNames, if_neg hbad, hoks, herr] at hok
    cases hok
  | case8 n sub rest hbad s hoks r0 hok0 ih ih2 =>
    intro r hok
    rw [cleanupNames, if_neg hbad, hoks, hok0] at hok
    injection hok with hok
    subst hok
    simp [noFilesMatching, ih s hoks, ih2 r0 hok0]

theorem cleanupNames_preserves (bad p : String → Bool) (t : List (String × FSTree)) :
    ∀ r, cleanupNames bad t = Except.ok r → noFilesMatching p t = true →
    noFilesMatching p r = true := by
  induction t using cleanupNames.induct bad with
  | case1 =>
    intro r hok _
    simp [cleanupNames] at hok
    subst hok
    simp [noFilesMatching]
  | case2 n c rest hbad ih =>
    intro r hok ht
    rw [cleanupNames, if_pos hbad] at hok
    simp [noFilesMatching] at ht
    exact ih r hok ht.2
  | case3 n c rest hbad e herr ih =>
    intro r hok _
    rw [cleanupNames, if_neg hbad, herr] at hok
    cases hok
  | case4 n c rest hbad r0 hok0 ih =>
    intro r hok ht
    rw [cleanupNames, if_neg hbad, hok0] at hok
    injection hok with hok
    subst hok
    simp [noFilesMatching] at ht ⊢
    exact ⟨ht.1, ih r0 hok0 ht.2⟩
  | case5 n sub rest hbad =>
    intro r hok _
    rw [cleanupNames, if_pos hbad] at hok
    cases hok
  | case6 n sub rest hbad e herr ih =>
    intro r hok _
    rw [cleanupNames, if_neg hbad, herr] at hok
    cases hok
  | case7 n sub rest hbad s hoks e herr ih ih2 =>
    intro r hok _
    rw [cleanupNames, if_neg hbad, hoks, herr] at hok
    cases hok
  | case8 n sub rest hbad s hoks r0 hok0 ih ih2 =>
    intro r hok ht
    rw [cleanupNames, if_neg hbad, hoks, hok0] at hok
    injection hok with hok
    subst hok
    simp [noFilesMatching] at ht ⊢
    exact ⟨ih s hoks ht.1, ih2 r0 hok0 ht.2⟩

/-- C6: after the three cleanup passes of lines 259-264 succeed and the
cleaned tree is relocated into the final output directory (line 271, itself
free of such files, as the freshly created remix directory is), no file named
*.pdb, CRC.txt or artifacts_readme.txt exists anywhere under the final output
tree. -/
theorem cleanup_removes_debug_files (t t2 final out : List (String × FSTree))
    (hclean : cleanup t = Except.ok t2)
    (hfinal : noFilesMatching badName final = true)
    (hmove : replace_recursively t2 final = Except.ok out) :
    noFilesMatching badName out = true := by
  rcases h1 : cleanupNames (fun n => endsWithName n ".pdb") t with e1 | t1
  · simp [cleanup, exceptStep, h1] at hclean
  simp only [cleanup, exceptStep, h1] at hclean
  rcases h2 : cleanupNames (fun n => n == "CRC.txt") t1 with e2 | tm
  · simp [exceptStep, h2] at hclean
  simp only [exceptStep, h2] at hclean
  have h3 : cleanupNames (fun n => n == "artifacts_readme.txt") tm = Except.ok t2 := hclean
  have hp1 : noFilesMatching (fun n => endsWithName n ".pdb") t2 = true :=
    cleanupNames_preserves _ _ tm t2 h3
      (cleanupNames_preserves _ _ t1 tm h2 (cleanupNames_clean _ t t1 h1))
  have hp2 : noFilesMatching (fun n => n == "CRC.txt") t2 = true :=
    cleanupNames_preserves _ _ tm t2 h3 (cleanupNames_clean _ t1 tm h2)
  have hp3 : noFilesMatching (fun n => n == "artifacts_readme.txt") t2 = true :=
    cleanupNames_clean _ tm t2 h3
  have hbad : noFilesMatching badName t2 = true :=
    noFilesMatching_or _ _ t2 (noFilesMatching_or _ _ t2 hp1 hp2) hp3
  exact replace_recursively_clean badName t2 final out hmove hbad hfinal

theorem cleanup_steps (t t1 tm t2 : List (String × FSTree))
    (h1 : cleanupNames (fun n => endsWithName n ".pdb") t = Except.ok t1)
    (h2 : cleanupNames (fun n => n == "CRC.txt") t1 = Except.ok tm)
    (h3 : cleanupNames (fun n => n == "artifacts_readme.txt") tm = Except.ok t2) :
    cleanup t = Except.ok t2 := by
  simp only [cleanup, exceptStep, h1, h2]
  exact h3

/-- Witness for C6 on a concrete tree holding all three kinds of debug file. -/
theorem cleanup_removes_debug_files_witness :
    cleanup [("dxvk.pdb", FSTree.file "p"), ("CRC.txt", FSTree.file "c"),
      ("bin", FSTree.dir [("artifacts_readme.txt", FSTree.file "r"),
        ("app.exe", FSTree.file "e")])] =
      Except.ok [("bin", FSTree.dir [("app.exe", FSTree.file "e")])] ∧
    noFilesMatching badName ([] : List (String × FSTree)) = true ∧
    replace_recursively [("bin", FSTree.dir [("app.exe", FSTree.file "e")])] [] =
      Except.ok [("bin", FSTree.dir [("app.exe", FSTree.file "e")])] ∧
    noFilesMatching badName [("bin", FSTree.dir [("app.exe", FSTree.file "e")])] = true := by
  have hclean : cleanup [("dxvk.pdb", FSTree.file "p"), ("CRC.txt", FSTree.file "c"),
      ("bin", FSTree.dir [("artifacts_readme.txt", FSTree.file "r"),
        ("app.exe", FSTree.file "e")])] =
      Except.ok [("bin", FSTree.dir [("app.exe", FSTree.file "e")])] := by
    refine cleanup_steps _ [("CRC.txt", FSTree.file "c"),
        ("bin", FSTree.dir [("artifacts_readme.txt", FSTree.file "r"),
          ("app.exe", FSTree.file "e")])]
      [("bin", FSTree.dir [("artifacts_readme.txt", FSTree.file "r"),
          ("app.exe", FSTree.file "e")])] _ ?_ ?_ ?_
    · simp +decide [cleanupNames]
    · simp +decide [cleanupNames]
    · simp +decide [cleanupNames]
  have hmove : replace_recursively [("bin", FSTree.dir [("app.exe", FSTree.file "e")])] [] =
      Except.ok [("bin", FSTree.dir [("app.exe", FSTree.file "e")])] := by
    simp [replace_recursively, lookupEntry, insertEntry]
  refine ⟨hclean, by simp [noFilesMatching], hmove, ?_⟩
  exact cleanup_removes_debug_files _ _ _ _ hclean (by simp [noFilesMatching]) hmove

/-! ### Build manifest -/

theorem fetch_loop_names (bt : String) (af : String → List Artifact) :
    ∀ repos names, fetch_loop bt af repos = Except.ok names →
    names = repos.filterMap (fun rc =>
      if rc.snd.repo_type == "artifact" then
        (select_artifact bt (af rc.fst)).map Artifact.name
      else none) := by
  intro repos
  induction repos with
  | nil =>
    intro names h
    simp [fetch_loop] at h
    simp [h.symm]
  | cons hd rest ih =>
    obtain ⟨repo, cfg⟩ := hd
    intro names h
    cases hrel : (cfg.repo_type == "release") with
    | true =>
      have hart : (cfg.repo_type == "artifact") = false := by
        have hr : cfg.repo_type = "release" := by simpa using hrel
        simp [hr]
      simp only [fetch_loop, hrel, if_true] at h
      have hstep : List.filterMap (fun rc =>
          if rc.snd.repo_type == "artifact" then
            (select_artifact bt (af rc.fst)).map Artifact.name
          else none) ((repo, cfg) :: rest) =
          List.filterMap (fun rc =>
            if rc.snd.repo_type == "artifact" then
              (select_artifact bt (af rc.fst)).map Artifact.name
            else none) rest := by
        have hartP : cfg.repo_type ≠ "artifact" := by simpa using hart
        simp [List.filterMap_cons, hartP]
      rw [hstep]
      exact ih names h
    | false =>
      cases hart : (cfg.repo_type == "artifact") with
      | false =>
        simp only [fetch_loop, hrel, hart, Bool.false_eq_true, if_false] at h
        have hstep : List.filterMap (fun rc =>
            if rc.snd.repo_type == "artifact" then
              (select_artifact bt (af rc.fst)).map Artifact.name
            else none) ((repo, cfg) :: rest) =
            List.filterMap (fun rc =>
              if rc.snd.repo_type == "artifact" then
                (select_artifact bt (af rc.fst)).map Artifact.name
              else none) rest := by
          have hartP : cfg.repo_type ≠ "artifact" := by simpa using hart
          simp [List.filterMap_cons, hartP]
        rw [hstep]
        exact ih names h
      | true =>
        cases hsel : select_artifact bt (af repo) with
        | none =>
          simp [fetch_loop, hrel, hart, hsel] at h
        | some a =>
          cases hrec : fetch_loop bt af rest with
          | error e =>
            simp [fetch_loop, hrel, hart, hsel, hrec] at h
          | ok ns =>
            simp only [fetch_loop, hrel, hart, hsel, hrec, Bool.false_eq_true,
              if_false, if_true, Except.ok.injEq] at h
            subst h
            have hstep : List.filterMap (fun rc =>
                if rc.snd.repo_type == "artifact" then
                  (select_artifact bt (af rc.fst)).map Artifact.name
                else none) ((repo, cfg) :: rest) =
                a.name :: List.filterMap (fun rc =>
                  if rc.snd.repo_type == "artifact" then
                    (select_artifact bt (af rc.fst)).map Artifact.name
                  else none) rest := by
              have hartP : cfg.repo_type = "artifact" := by simpa using hart
              simp [List.filterMap_cons, hartP, hsel]
            rw [hstep]
            exact congrArg (a.name :: ·) (ih ns hrec)

theorem splitNl_ne_nil (cs : List Char) : splitNl cs ≠ [] := by
  induction cs with
  | nil => simp [splitNl]
  | cons c rest ih =>
    by_cases hc : c = '\n'
    · simp [splitNl, hc]
    · simp only [splitNl, if_neg hc]
      rcases h : splitNl rest with _ | ⟨l, ls⟩
      · simp
      · simp

theorem splitNl_append (a b : List Char) (h : ('\n' ∈ a) → False) :
    splitNl (a ++ '\n' :: b) = a :: splitNl b := by
  induction a with
  | nil => simp [splitNl]
  | cons c a2 ih =>
    have hc : c ≠ '\n' := by
      intro hh
      exact h (by simp [hh])
    have h2 : ('\n' ∈ a2) → False := fun hh => h (by simp [hh])
    simp only [List.cons_append, splitNl, if_neg hc, List.append_eq, ih h2]

theorem build_names_txt_data (n : String) (rest : List String) :
    (build_names_txt (n :: rest)).data = n.data ++ '\n' :: (build_names_txt rest).data := by
  have h10 : ("\n").data = ['\n'] := rfl
  show (n ++ "\n" ++ build_names_txt rest).data = _
  simp [String.data_append, h10]

theorem linesOf_build_names (names : List String)
    (h : ∀ n ∈ names, ('\n' ∈ n.data) → False) :
    linesOf (build_names_txt names) = names := by
  induction names with
  | nil => rfl
  | cons n rest ih =>
    have hn : ('\n' ∈ n.data) → False := h n (by simp)
    have hrest : ∀ m ∈ rest, ('\n' ∈ m.data) → False := fun m hm => h m (by simp [hm])
    have hne : (splitNl (build_names_txt rest).data).map (fun l => String.mk l) ≠ [] := by
      simp [List.map_eq_nil_iff, splitNl_ne_nil]
    show ((splitNl (build_names_txt (n :: rest)).data).map (fun l => String.mk l)).dropLast
      = n :: rest
    rw [build_names_txt_data, splitNl_append _ _ hn, List.map_cons,
      List.dropLast_cons_of_ne_nil hne]
    have hmk : String.mk n.data = n := rfl
    rw [hmk]
    exact congrArg (n :: ·) (ih hrest)

/-- C7: whenever the fetch loop over the repository table completes, the
recorded BUILD_NAMES list holds exactly one entry per artifact-strategy
repository, in table (fetch) order, each entry being the selected artifact's
display name; and the build_names.txt content written at finalize time is
that list rendered one name per line (its lines are exactly the list). -/
theorem manifest_one_line_per_artifact_repo (bt : String)
    (af : String → List Artifact) (repos : List (String × RepoConfig))
    (names : List String)
    (hok : fetch_loop bt af repos = Except.ok names)
    (hnl : ∀ n ∈ names, ('\n' ∈ n.data) → False) :
    names = repos.filterMap (fun rc =>
      if rc.snd.repo_type == "artifact" then
        (select_artifact bt (af rc.fst)).map Artifact.name
      else none) ∧
    linesOf (build_names_txt names) = names :=
  ⟨fetch_loop_names bt af repos names hok, linesOf_build_names names hnl⟩

/-- Witness for C7 on the actual repository table: the release repository
contributes no line, the two artifact repositories contribute one line each in
fetch order. -/
theorem manifest_one_line_per_artifact_repo_witness :
    fetch_loop "release"
      (fun repo => if repo == "NVIDIAGameWorks/dxvk-remix" then
          [Artifact.mk "dxvk-remix-release-abc123" 11 5]
        else [Artifact.mk "bridge-remix-release-xyz789" 22 5]) REPOSITORIES =
      Except.ok ["dxvk-remix-release-abc123", "bridge-remix-release-xyz789"] ∧
    (∀ n ∈ ["dxvk-remix-release-abc123", "bridge-remix-release-xyz789"],
      ('\n' ∈ n.data) → False) ∧
    ["dxvk-remix-release-abc123", "bridge-remix-release-xyz789"] =
      REPOSITORIES.filterMap (fun rc =>
        if rc.snd.repo_type == "artifact" then
          (select_artifact "release" ((fun repo =>
            if repo == "NVIDIAGameWorks/dxvk-remix" then
              [Artifact.mk "dxvk-remix-release-abc123" 11 5]
            else [Artifact.mk "bridge-remix-release-xyz789" 22 5]) rc.fst)).map Artifact.name
        else none) ∧
    linesOf (build_names_txt ["dxvk-remix-release-abc123", "bridge-remix-release-xyz789"]) =
      ["dxvk-remix-release-abc123", "bridge-remix-release-xyz789"] := by
  have h := manifest_one_line_per_artifact_repo "release"
    (fun repo => if repo == "NVIDIAGameWorks/dxvk-remix" then
        [Artifact.mk "dxvk-remix-release-abc123" 11 5]
      else [Artifact.mk "bridge-remix-release-xyz789" 22 5]) REPOSITORIES
    ["dxvk-remix-release-abc123", "bridge-remix-release-xyz789"] rfl
    (by decide)
  exact ⟨rfl, by decide, h.1, h.2⟩

/-! ### Argument handling and artifact build-type matching -/

/-- C9 (code-bug evidence): the command-line flag is never consulted.  The
args namespace built at lines 53-55 ignores the command line entirely (the
parser of lines 36-52 is constructed but parse_args is never called): the
same args result from any command line, and supplying the flag value debug
while answering 1 at the prompt still yields build type release. -/
theorem build_type_flag_ignored :
    (∀ cli cli2 stdin_lines, make_args cli stdin_lines = make_args cli2 stdin_lines) ∧
    make_args ["-b", "debug"] ["1"] = some (Args.mk false "release") :=
  ⟨fun _ _ _ => rfl, rfl⟩

/-- C10: build-type matching at lines 180-186 is substring containment, not
equality: requesting debug selects the first artifact whose name contains
debug, which here is the debugoptimized artifact, even though an exact debug
artifact appears later in the listing. -/
theorem build_type_substring_match :
    select_artifact "debug"
      [Artifact.mk "dxvk-remix-debugoptimized-4f2a" 1 10,
       Artifact.mk "dxvk-remix-debug-4f2a" 2 10] =
      some (Artifact.mk "dxvk-remix-debugoptimized-4f2a" 1 10) ∧
    containsStr "dxvk-remix-debugoptimized-4f2a" "debugoptimized" = true ∧
    containsStr "dxvk-remix-debug-4f2a" "debugoptimized" = false := by
  refine ⟨?_, by decide, by decide⟩
  rfl
